import Mathlib

/-!
Verification of the chaplin-ui capture-to-ordered-emission pipeline.

Shallow embedding of the Python sources:
  * `chaplin_ui/core/text_formatter.py`  — the local formatting fallback
  * `chaplin_ui/core/llm_client.py`      — the three-tier correction fallback
  * `chaplin_ui/core/video_processor.py` — segment naming, discard policy, cleanup
  * `chaplin_ui/core/inference_handler.py` and `chaplin.py` — the dispatcher,
    the sequence gate inside `_correct_output_async`, and the capture loop.

Python strings are modelled as `List Char` with ASCII semantics for the
character classes used by the code (`\w`, `\s`, `str.strip`, `str.lower`,
`str.upper`).  Machine integers do not overflow in any of the modelled code
(sequence counters are unbounded Python ints), so `Nat` is used directly.
-/

/-! ### Character classes (ASCII model of Python `re` and `str` semantics) -/

/-- ASCII model of Python whitespace (`\s`, `str.strip`, `str.isspace`):
space, tab, newline, carriage return, vertical tab, form feed. -/
def isPySpace (c : Char) : Bool :=
  c = ' ' || c = '\t' || c = '\n' || c = '\x0d' || c = '\x0b' || c = '\x0c'

/-- ASCII model of the regex class `\w`: alphanumeric or underscore. -/
def isWordChar (c : Char) : Bool :=
  (97 ≤ c.toNat && c.toNat ≤ 122) || (65 ≤ c.toNat && c.toNat ≤ 90) ||
  (48 ≤ c.toNat && c.toNat ≤ 57) || c = '_'

/-- The terminal-punctuation class `[.!?]` used throughout the pipeline. -/
def isTermPunct (c : Char) : Bool :=
  c = '.' || c = '!' || c = '?'

/-- ASCII model of Python `str.lower` on a single character. -/
def pyToLower (c : Char) : Char :=
  if 65 ≤ c.toNat ∧ c.toNat ≤ 90 then Char.ofNat (c.toNat + 32) else c

/-- ASCII model of Python `str.upper` on a single character. -/
def pyToUpper (c : Char) : Char :=
  if 97 ≤ c.toNat ∧ c.toNat ≤ 122 then Char.ofNat (c.toNat - 32) else c

/-- Python `str.strip()`: drop whitespace from both ends. -/
def pyStrip (s : List Char) : List Char :=
  ((s.dropWhile isPySpace).reverse.dropWhile isPySpace).reverse

/-- `pat` is a prefix of `s` (literal match, as for an escaped regex literal). -/
def listStartsWith : List Char → List Char → Bool
  | [], _ => true
  | _ :: _, [] => false
  | p :: ps, c :: cs => p = c && listStartsWith ps cs

/-! ### `text_formatter.py` -/

/-- `CLAUSE_STARTERS` from `text_formatter.py`. -/
def CLAUSE_STARTERS : List (List Char) :=
  ["do you".toList, "did you".toList, "can you".toList, "would you".toList,
   "could you".toList, "will you".toList, "do you want".toList]

/-- Attempt to match the tail of the pattern `(\w)\s+<starter>` (the part after
the captured word character) at the front of `rest`: one or more whitespace
characters followed by the literal starter.  Returns the remainder after the
match.  The `\s+` is effectively deterministic here because every starter
begins with a non-whitespace letter. -/
def matchGapStarter (starter : List Char) (rest : List Char) : Option (List Char) :=
  match rest with
  | [] => none
  | c :: cs =>
    if isPySpace c then
      let tail := (c :: cs).dropWhile isPySpace
      if listStartsWith starter tail then some (tail.drop starter.length) else none
    else none

/-- One pass of `re.sub(r'(\w)\s+' + re.escape(starter), r'\1. ' + starter, text)`:
left-to-right, non-overlapping, resuming after each match.  `fuel` bounds the
recursion; it is instantiated with the length of the scanned list, which
suffices because each step consumes at least one character. -/
def applyStarterSubF (starter : List Char) : Nat → List Char → List Char
  | 0, s => s
  | _ + 1, [] => []
  | fuel + 1, c :: rest =>
    if isWordChar c then
      match matchGapStarter starter rest with
      | some rest2 => c :: '.' :: ' ' :: (starter ++ applyStarterSubF starter fuel rest2)
      | none => c :: applyStarterSubF starter fuel rest
    else
      c :: applyStarterSubF starter fuel rest

/-- `re.sub(r'(\w)\s+' + re.escape(starter), r'\1. ' + starter, text)`. -/
def applyStarterSub (starter : List Char) (s : List Char) : List Char :=
  applyStarterSubF starter s.length s

/-- `re.split(r'[.!?]+', text)`: split on maximal runs of terminal punctuation,
keeping empty pieces (as Python does).  Fuel-bounded as above. -/
def splitPunctF : Nat → List Char → List (List Char)
  | 0, s => [s]
  | _ + 1, [] => [[]]
  | fuel + 1, c :: rest =>
    if isTermPunct c then
      [] :: splitPunctF fuel (rest.dropWhile isTermPunct)
    else
      match splitPunctF fuel rest with
      | [] => [[c]]
      | p :: ps => (c :: p) :: ps

/-- `re.split(r'[.!?]+', text)`. -/
def splitPunct (s : List Char) : List (List Char) :=
  splitPunctF s.length s

/-- The per-sentence capitalization step of `format_text_locally`:
`sentence[0].upper() + sentence[1:]` when `len(sentence) > 1`,
else `sentence.upper()`. -/
def capitalizeSentence (s : List Char) : List Char :=
  if 1 < s.length then
    match s with
    | [] => []
    | c :: rest => pyToUpper c :: rest
  else s.map pyToUpper

/-- `'. '.join(formatted_sentences)`. -/
def joinDotSpace : List (List Char) → List Char
  | [] => []
  | [x] => x
  | x :: y :: rest => x ++ '.' :: ' ' :: joinDotSpace (y :: rest)

/-- `format_text_locally` from `chaplin_ui/core/text_formatter.py`:
empty/whitespace-only input is returned unchanged; otherwise the text is
stripped and lowercased, periods are inserted before clause starters, the
text is split into sentences which are stripped, filtered and capitalized,
joined with `'. '`, and terminal punctuation is ensured. -/
def format_text_locally (text : List Char) : List Char :=
  if text = [] || pyStrip text = [] then text
  else
    let text1 := (pyStrip text).map pyToLower
    let text2 := CLAUSE_STARTERS.foldl (fun t st => applyStarterSub st t) text1
    let sentences := ((splitPunct text2).map pyStrip).filter (fun s => s ≠ [])
    let formatted := sentences.map capitalizeSentence
    let result := joinDotSpace formatted
    match result.getLast? with
    | none => result
    | some c => if isTermPunct c then result else result ++ ['.']

/-- `True` iff the string ends with `.`, `!` or `?`. -/
def endsTerminal (s : List Char) : Bool :=
  match s.getLast? with
  | none => false
  | some c => isTermPunct c

example : format_text_locally "HELLO WORLD".toList = "Hello world.".toList := by decide
example : format_text_locally "I LOVE YOU DO YOU LOVE ME".toList
    = "I love you. Do you love me.".toList := by decide
example : format_text_locally "   ".toList = "   ".toList := by decide
example : format_text_locally "...".toList = [] := by decide

example : format_text_locally "HEY  DO YOU SEE".toList = "Hey. Do you see.".toList := by decide
example : format_text_locally "A DO YOU DO YOU".toList = "A. Do you do you.".toList := by decide
example : format_text_locally "WHAT... IS THIS".toList = "What. Is this.".toList := by decide
example : format_text_locally "X.Y".toList = "X. Y.".toList := by decide
example : format_text_locally " .A. ".toList = "A.".toList := by decide
example : format_text_locally "CAN YOU".toList = "Can you.".toList := by decide
example : format_text_locally "U DO YOU WANT IT".toList = "U. Do you want it.".toList := by decide
example : format_text_locally "A,B".toList = "A,b.".toList := by decide
example : format_text_locally "..A..B..".toList = "A. B.".toList := by decide
example : format_text_locally "I\tDO YOU".toList = "I. Do you.".toList := by decide
example : format_text_locally "A DID YOU CAN YOU".toList = "A. Did you. Can you.".toList := by decide

/-! ### `llm_client.py` — the three-tier correction fallback -/

/-- The Pydantic model `ChaplinOutput` from `chaplin_ui/core/models.py`. -/
structure ChaplinOutputM where
  list_of_changes : List Char
  corrected_text : List Char
deriving DecidableEq

/-- `LLM_FALLBACK_MODEL` from `chaplin_ui/core/constants.py`. -/
def LLM_FALLBACK_MODEL : List Char := "zai-org/glm-4.6v-flash".toList

/-- The behaviour of the three opaque network calls made by
`LLMClient.correct_text`: the structured call to the primary model, the
structured call to the fallback model, and the unstructured plain-text call.
Each either yields a parsed/validated value or fails with an exception
(`Except.error`); a call that is parsed into `ChaplinOutputM` folds the
`model_validate_json` step into the same `Except`. -/
structure CorrectionEnv where
  primaryResult : Except Unit ChaplinOutputM
  fallbackResult : Except Unit ChaplinOutputM
  plainResult : Except Unit (List Char)

/-- `LLMClient.correct_text` from `chaplin_ui/core/llm_client.py`, as a
function of the behaviour of the three network calls: try the primary model;
on any exception try the fallback model when `use_fallback_model` is set and
the configured model is not already the fallback model; on any exception try
the plain-text prompt (whole response stripped); on any exception fall back to
`format_text_locally`.  The result is `Except` so that an uncaught exception
would be visible as `.error`. -/
def correct_text (env : CorrectionEnv) (raw_text : List Char)
    (use_fallback_model : Bool) (model : List Char) : Except Unit ChaplinOutputM :=
  match env.primaryResult with
  | .ok out => .ok out
  | .error _ =>
    let tryPlain : Except Unit ChaplinOutputM :=
      match env.plainResult with
      | .ok content => .ok ⟨[], pyStrip content⟩
      | .error _ => .ok ⟨[], format_text_locally raw_text⟩
    if use_fallback_model && model ≠ LLM_FALLBACK_MODEL then
      match env.fallbackResult with
      | .ok out => .ok out
      | .error _ => tryPlain
    else tryPlain

/-- The environment of a completely unreachable correction service: all three
network calls raise. -/
def unreachableEnv : CorrectionEnv := ⟨.error (), .error (), .error ()⟩

/-! ### `Chaplin._correct_output_async`, steps before the gate (`chaplin.py`) -/

/-- The `if corrected and corrected[-1] not in ['.', '?', '!']: corrected += '.'`
normalization step of `_correct_output_async`. -/
def ensureTerminal (s : List Char) : List Char :=
  match s.getLast? with
  | none => s
  | some c => if isTermPunct c then s else s ++ ['.']

/-- Steps 1–3 of the correction task (`Chaplin._correct_output_async` before
the gate rendezvous), without the trailing `' '` separator: on a normal return
of `correct_text` the corrected text is stripped and terminal punctuation is
ensured; if the `await` itself raised, the local formatter is applied to the
raw output (un-stripped, as in the `except` branch) and punctuation ensured. -/
def correctStageCore (tryResult : Except Unit ChaplinOutputM)
    (output : List Char) : List Char :=
  match tryResult with
  | .ok o => ensureTerminal (pyStrip o.corrected_text)
  | .error _ => ensureTerminal (format_text_locally output)

/-- Steps 1–3 of the correction task including the trailing separator
(`corrected += ' '`). -/
def correctStage (tryResult : Except Unit ChaplinOutputM)
    (output : List Char) : List Char :=
  correctStageCore tryResult output ++ [' ']

/-! ### The inference dispatcher (`chaplin.py` `perform_inference`,
`inference_handler.py` `run_inference`, and the futures loop of
`start_webcam`) -/

/-- The outcome of the opaque `vsr_model(video_path)` call for one job. -/
inductive JobOutcome where
  | success (text : List Char)
  | failure
deriving DecidableEq

/-- One queued inference job: the segment's video path and the (opaque)
outcome its recognition call will have. -/
structure Job where
  path : List Char
  outcome : JobOutcome
deriving DecidableEq

/-- The dispatcher-side state: `current_sequence` is `self.current_sequence`
in `chaplin.py`; `scheduled` records, in scheduling order, the
`(sequence_num, output)` pairs handed to `asyncio.run_coroutine_threadsafe`;
`files` is the set of video files on disk; `failures` counts the
`logger.error("Inference task failed: ...")` reports of the futures loop. -/
structure DispatchState where
  current_sequence : Nat
  scheduled : List (Nat × List Char)
  files : List (List Char)
  failures : Nat
deriving DecidableEq

/-- Processing of one completed inference job, as performed by the single
worker (`ThreadPoolExecutor(max_workers=1)`) plus the futures loop of
`start_webcam`:

* success — `on_result` runs: `sequence_num = self.current_sequence;
  self.current_sequence += 1` and the correction task `(output, sequence_num)`
  is scheduled; then the futures loop does `os.remove(result["video_path"])`
  (`run_inference` is called with `cleanup_file=False`);
* failure — `run_inference` catches the exception and returns `None`,
  `perform_inference` raises `RuntimeError`, and the futures loop logs
  `"Inference task failed"` and drops the future; no sequence number is
  taken, nothing is scheduled, and no file is removed. -/
def processJob (s : DispatchState) (j : Job) : DispatchState :=
  match j.outcome with
  | .success t =>
    { s with
      current_sequence := s.current_sequence + 1
      scheduled := s.scheduled ++ [(s.current_sequence, t)]
      files := s.files.erase j.path }
  | .failure => { s with failures := s.failures + 1 }

/-- The dispatcher processes jobs strictly one at a time, in submission
order. -/
def processJobs (s : DispatchState) (js : List Job) : DispatchState :=
  js.foldl processJob s

/-- The texts of the successful jobs, in completion order. -/
def successTexts (js : List Job) : List (List Char) :=
  js.filterMap (fun j =>
    match j.outcome with
    | .success t => some t
    | .failure => none)

/-! ### `video_processor.py` — naming, discard policy, shutdown cleanup -/

/-- `MIN_RECORDING_DURATION_SECONDS` from `chaplin_ui/core/constants.py`. -/
def MIN_RECORDING_DURATION_SECONDS : Nat := 2

/-- `should_process_recording` from `chaplin_ui/core/video_processor.py`:
`frame_count >= fps * MIN_RECORDING_DURATION_SECONDS`. -/
def should_process_recording (frame_count : Nat) (fps : Nat) : Bool :=
  fps * MIN_RECORDING_DURATION_SECONDS ≤ frame_count

/-- Little-endian decimal digits of `n` as characters; `fuel` bounds the
recursion and is instantiated with `n` itself, which suffices since a positive
number has no more digits than its own value. -/
def decimalDigitsF : Nat → Nat → List Char
  | 0, _ => []
  | _ + 1, 0 => []
  | fuel + 1, n + 1 => Char.ofNat (48 + (n + 1) % 10) :: decimalDigitsF fuel ((n + 1) / 10)

/-- The decimal numeral of `n`, as printed by Python's f-string. -/
def decimalChars (n : Nat) : List Char :=
  if n = 0 then ['0'] else (decimalDigitsF n n).reverse

/-- Decode a big-endian decimal character string back to a number (used to
prove that distinct timestamps give distinct file names). -/
def decodeDecimal (cs : List Char) : Nat :=
  cs.foldl (fun acc c => acc * 10 + (c.toNat - 48)) 0

/-- `generate_video_path` from `chaplin_ui/core/video_processor.py`:
`f"{output_prefix}{timestamp}.mp4"` where `timestamp` is the current time in
milliseconds.  The timestamp is a parameter here (time is an input of the
program). -/
def generate_video_path (pfx : List Char) (timestamp : Nat) : List Char :=
  pfx ++ decimalChars timestamp ++ ".mp4".toList

/-- A file name matches the glob pattern `f"{output_prefix}*.mp4"` used by
`cleanup_temp_videos`. -/
def matchesCleanupGlob (pfx : List Char) (name : List Char) : Bool :=
  listStartsWith pfx name &&
  listStartsWith ".mp4".toList.reverse (name.drop pfx.length).reverse

/-- A file name matches the glob pattern `prefix*` (any name beginning with
the output prefix) — the pattern the specification ascribes to the cleanup. -/
def matchesStarGlob (pfx : List Char) (name : List Char) : Bool :=
  listStartsWith pfx name

/-- `cleanup_temp_videos` from `chaplin_ui/core/video_processor.py`: unlink
every file in the directory matching `f"{output_prefix}*.mp4"`.  Returns the
files that remain. -/
def cleanup_temp_videos (pfx : List Char) (files : List (List Char)) :
    List (List Char) :=
  files.filter (fun f => !(matchesCleanupGlob pfx f))

example : matchesCleanupGlob "webcam".toList "webcam17.mp4".toList = true := by decide
example : matchesCleanupGlob "webcam".toList "webcam.mp4".toList = true := by decide
example : matchesCleanupGlob "webcam".toList "webcamnote.txt".toList = false := by decide
example : matchesCleanupGlob "webcam".toList "webcam.mp4x".toList = false := by decide
example : decimalChars 1234 = "1234".toList := by decide
example : decimalChars 0 = "0".toList := by decide
example : generate_video_path "webcam".toList 507 = "webcam507.mp4".toList := by decide

/-! ### The capture loop of `Chaplin.start_webcam` (`chaplin.py`) -/

/-- The recording-relevant state of the capture loop in `start_webcam`:
`recording` is `self.recording` (flipped by the Alt hotkey), `outPath` is the
`out` video writer (identified by the file it writes, `None` when closed),
`frame_count` and `output_path` are the loop-local variables of the same
names, `files` are the video files on disk, `submitted` the paths handed to
`self.executor.submit(self.perform_inference, ...)` in order, and
`openWriters` tracks every writer created and not yet released (to state that
at most one is ever open). -/
structure CamState where
  recording : Bool
  outPath : Option (List Char)
  frame_count : Nat
  output_path : List Char
  files : List (List Char)
  submitted : List (List Char)
  openWriters : List (List Char)
deriving DecidableEq

/-- One frame-eligible pass of the capture loop body (`chaplin.py` lines
269–326), parameterised by the configured `fps` and `output_prefix`, the
millisecond timestamp `ts` at which the pass runs, and whether `cap.read()`
succeeded (`frameOk`; on failure the body logs and `continue`s).

* While `recording`: if no writer is open, `generate_video_path` is called and
  a writer created (`frame_count = 0`); then the frame is written and
  `frame_count += 1`.
* While not `recording` and `frame_count > 0`: the writer (if any) is
  released; if `should_process_recording(frame_count, fps)` the path is
  submitted for inference, else the file is removed; `frame_count` and
  `output_path` are reset.
* Otherwise nothing changes. -/
def camTick (fps : Nat) (pfx : List Char) (ts : Nat) (frameOk : Bool)
    (s : CamState) : CamState :=
  if !frameOk then s
  else if s.recording then
    let s1 :=
      match s.outPath with
      | none =>
        let p := generate_video_path pfx ts
        { s with outPath := some p, output_path := p, frame_count := 0,
                 files := s.files ++ [p], openWriters := s.openWriters ++ [p] }
      | some _ => s
    { s1 with frame_count := s1.frame_count + 1 }
  else if 0 < s.frame_count then
    let s1 :=
      match s.outPath with
      | some p => { s with outPath := none, openWriters := s.openWriters.erase p }
      | none => s
    if should_process_recording s1.frame_count fps then
      { s1 with submitted := s1.submitted ++ [s1.output_path],
                frame_count := 0, output_path := [] }
    else
      { s1 with files := s1.files.erase s1.output_path,
                frame_count := 0, output_path := [] }
  else s

/-- The two events that change recording state: the Alt hotkey toggling
`self.recording` (`toggle_recording`), and a pass of the capture loop. -/
inductive CamStep (fps : Nat) (pfx : List Char) : CamState → CamState → Prop where
  | toggle (s : CamState) : CamStep fps pfx s { s with recording := !s.recording }
  | tick (s : CamState) (ts : Nat) (frameOk : Bool) :
      CamStep fps pfx s (camTick fps pfx ts frameOk s)

/-- The state at entry of the capture loop: not recording, no writer,
`frame_count = 0`, `output_path = ""`. -/
def camInit : CamState :=
  { recording := false, outPath := none, frame_count := 0, output_path := [],
    files := [], submitted := [], openWriters := [] }

/-- States reachable by the capture loop from its entry state. -/
inductive CamReach (fps : Nat) (pfx : List Char) : CamState → Prop where
  | init : CamReach fps pfx camInit
  | step {s t : CamState} : CamReach fps pfx s → CamStep fps pfx s t →
      CamReach fps pfx t

/-! ### The sequence gate (`Chaplin._correct_output_async` lines 180–193,
`AsyncEventLoopManager.typing_condition`) -/

/-- The phase of the correction task carrying one sequence number:
still correcting (or not yet scheduled), parked at the gate rendezvous,
finished typing, or crashed because `kbd_controller.type` raised. -/
inductive TaskPhase where
  | correcting | atGate | typed | crashed
deriving DecidableEq

/-- Pointwise update of a phase assignment. -/
def setPhase (f : Nat → TaskPhase) (n : Nat) (v : TaskPhase) : Nat → TaskPhase :=
  fun m => if m = n then v else f m

/-- The gate state: `self.next_sequence_to_type`, the phase of each sequence
number's task, and the list of sequence numbers whose emission side effect
(`kbd_controller.type`) has been performed, in the order it was performed. -/
structure GateState where
  nextToEmit : Nat
  phase : Nat → TaskPhase
  emitted : List Nat

/-- The events of the correction domain, under the `typing_condition` lock
(the asyncio event loop runs one task at a time between awaits, so the
check-emit-increment region is atomic):

* `arrive n` — the correction (steps 1–3) for sequence `n` completes, in any
  order and after any latency, and the task reaches the gate;
* `emit n` — a task parked at the gate whose sequence number equals
  `next_sequence_to_type` types its text, increments the counter and wakes
  all waiters (code path where `kbd_controller.type` returns normally);
* `emitFail n` — the same task's `kbd_controller.type` raises: the exception
  propagates out of the `async with` block, so the increment and
  `notify_all` on the lines below the call never execute and the coroutine
  dies.  (The lock itself is released by `__aexit__`.) -/
inductive GateStep : GateState → GateState → Prop where
  | arrive (s : GateState) (n : Nat) :
      s.phase n = .correcting →
      GateStep s { s with phase := setPhase s.phase n .atGate }
  | emit (s : GateState) (n : Nat) :
      s.phase n = .atGate → s.nextToEmit = n →
      GateStep s { nextToEmit := n + 1, phase := setPhase s.phase n .typed,
                   emitted := s.emitted ++ [n] }
  | emitFail (s : GateState) (n : Nat) :
      s.phase n = .atGate → s.nextToEmit = n →
      GateStep s { s with phase := setPhase s.phase n .crashed }

/-- Reflexive-transitive closure of `GateStep`. -/
inductive GateReach : GateState → GateState → Prop where
  | refl (s : GateState) : GateReach s s
  | tail {s t u : GateState} : GateReach s t → GateStep t u → GateReach s u

/-- The initial gate state: `next_sequence_to_type = 0`, nothing typed, every
task still in correction. -/
def gateInit : GateState := ⟨0, fun _ => .correcting, []⟩

/-! ### Helper lemmas -/

lemma mem_dropWhile_of_not {p : Char → Bool} {c : Char} :
    ∀ {l : List Char}, c ∈ l → p c = false → c ∈ l.dropWhile p
  | [], h, _ => by cases h
  | x :: xs, h, hc => by
    by_cases hx : p x = true
    · rcases List.mem_cons.mp h with rfl | hmem
      · rw [hx] at hc; cases hc
      · rw [List.dropWhile_cons_of_pos hx]
        exact mem_dropWhile_of_not hmem hc
    · rw [List.dropWhile_cons_of_neg hx]
      exact h

lemma mem_pyStrip {c : Char} {s : List Char} (h : c ∈ s) (hc : isPySpace c = false) :
    c ∈ pyStrip s := by
  unfold pyStrip
  rw [List.mem_reverse]
  exact mem_dropWhile_of_not (List.mem_reverse.mpr (mem_dropWhile_of_not h hc)) hc

lemma pyStrip_ne_nil {c : Char} {s : List Char} (h : c ∈ s) (hc : isPySpace c = false) :
    pyStrip s ≠ [] :=
  List.ne_nil_of_mem (mem_pyStrip h hc)

/-! ### Claim C10 -/

/-- Claim C10: for every input string that is empty or consists only of
whitespace, `format_text_locally` returns the input unchanged — it adds no
terminal punctuation, changes no case, and in particular can return an empty
or all-whitespace string. -/
theorem c10_formatter_empty_or_whitespace_unchanged (text : List Char)
    (h : text = [] ∨ ∀ c ∈ text, isPySpace c = true) :
    format_text_locally text = text := by
  rcases h with rfl | hall
  · rfl
  · have hdrop : text.dropWhile isPySpace = [] := List.dropWhile_eq_nil_iff.mpr hall
    have hs : pyStrip text = [] := by
      unfold pyStrip
      rw [hdrop]
      rfl
    unfold format_text_locally
    rw [hs]
    simp

/-- Witness for C10 at the all-whitespace input `"  "`. -/
theorem c10_witness :
    (∀ c ∈ "  ".toList, isPySpace c = true) ∧
      format_text_locally "  ".toList = "  ".toList :=
  ⟨by decide,
   c10_formatter_empty_or_whitespace_unchanged "  ".toList (Or.inr (by decide))⟩

/-! ### Claim C7 -/

/-- Claim C7: `correct_text` never raises to its caller: for every input
text, every failure of the remote correction call is recovered through the
fallback chain (fallback model, then the unstructured plain-text prompt, then
the local formatter), so the call always resolves to some `ChaplinOutput`
value and a correction-service failure never surfaces as an error. -/
theorem c7_correct_text_never_raises (env : CorrectionEnv) (raw_text : List Char)
    (use_fallback_model : Bool) (model : List Char) :
    ∃ out, correct_text env raw_text use_fallback_model model = Except.ok out := by
  obtain ⟨pr, fr, plr⟩ := env
  unfold correct_text
  cases pr with
  | ok o => exact ⟨o, rfl⟩
  | error e =>
    cases fr with
    | ok o2 =>
      cases plr <;> dsimp only <;> split <;> exact ⟨_, rfl⟩
    | error e2 =>
      cases plr <;> dsimp only <;> split <;> exact ⟨_, rfl⟩

/-! ### Claim C3 -/

/-- The dispatcher-visible part of the state: counter, scheduled correction
tasks, files on disk (everything except the failure log). -/
def dispatchCore (s : DispatchState) :
    Nat × List (Nat × List Char) × List (List Char) :=
  (s.current_sequence, s.scheduled, s.files)

lemma processJob_core {s1 s2 : DispatchState} (j : Job)
    (h : dispatchCore s1 = dispatchCore s2) :
    dispatchCore (processJob s1 j) = dispatchCore (processJob s2 j) := by
  obtain ⟨hc, hs, hf⟩ : s1.current_sequence = s2.current_sequence ∧
      s1.scheduled = s2.scheduled ∧ s1.files = s2.files := by
    simpa [dispatchCore, Prod.ext_iff] using h
  obtain ⟨p, o⟩ := j
  cases o <;> simp [dispatchCore, processJob, hc, hs, hf]

lemma processJobs_core (js : List Job) : ∀ {s1 s2 : DispatchState},
    dispatchCore s1 = dispatchCore s2 →
    dispatchCore (processJobs s1 js) = dispatchCore (processJobs s2 js) := by
  induction js with
  | nil => intro s1 s2 h; exact h
  | cons j rest ih => intro s1 s2 h; exact ih (processJob_core j h)

lemma processJobs_scheduled (js : List Job) : ∀ s : DispatchState,
    (processJobs s js).scheduled
      = s.scheduled ++ List.enumFrom s.current_sequence (successTexts js) ∧
    (processJobs s js).current_sequence
      = s.current_sequence + (successTexts js).length := by
  induction js with
  | nil => intro s; simp [processJobs, successTexts]
  | cons j rest ih =>
    intro s
    obtain ⟨p, o⟩ := j
    cases o with
    | success t =>
      have hst : successTexts (⟨p, .success t⟩ :: rest) = t :: successTexts rest := by
        simp [successTexts]
      have hrec := ih (processJob s ⟨p, .success t⟩)
      rw [processJobs, List.foldl_cons, ← processJobs]
      rw [hst]
      rcases hrec with ⟨h1, h2⟩
      constructor
      · rw [h1]
        simp [processJob, List.enumFrom]
      · rw [h2]
        simp [processJob]
        omega
    | failure =>
      have hst : successTexts (⟨p, .failure⟩ :: rest) = successTexts rest := by
        simp [successTexts]
      have hrec := ih (processJob s ⟨p, .failure⟩)
      rw [processJobs, List.foldl_cons, ← processJobs]
      rw [hst]
      rcases hrec with ⟨h1, h2⟩
      constructor
      · rw [h1]; simp [processJob]
      · rw [h2]; simp [processJob]

lemma processJob_failure_core (s : DispatchState) (p : List Char) :
    dispatchCore (processJob s ⟨p, JobOutcome.failure⟩) = dispatchCore s := by
  simp [dispatchCore, processJob]

/-- Claim C3: a sequence number is assigned exactly once per successful
inference result, in the exact order successful results become available,
starting at 0 with no gaps (the scheduled correction tasks are exactly
`(0, t₀), (1, t₁), …` over the successful outputs in order); a failed
inference consumes no sequence number — `current_sequence` is unchanged and
the next successful job receives the number the failed one would have
received (dropping the failed job from the queue leaves the schedule and the
counter unchanged). -/
theorem c3_sequence_numbers (js : List Job) (files0 : List (List Char)) :
    (processJobs ⟨0, [], files0, 0⟩ js).scheduled = List.enumFrom 0 (successTexts js) ∧
    ((processJobs ⟨0, [], files0, 0⟩ js).scheduled).map Prod.fst
      = List.range (successTexts js).length ∧
    (∀ (s : DispatchState) (p : List Char) (rest : List Job),
      (processJob s ⟨p, JobOutcome.failure⟩).current_sequence = s.current_sequence ∧
      (processJob s ⟨p, JobOutcome.failure⟩).scheduled = s.scheduled ∧
      (processJobs s (⟨p, JobOutcome.failure⟩ :: rest)).scheduled
        = (processJobs s rest).scheduled ∧
      (processJobs s (⟨p, JobOutcome.failure⟩ :: rest)).current_sequence
        = (processJobs s rest).current_sequence) := by
  have hmain := processJobs_scheduled js ⟨0, [], files0, 0⟩
  refine ⟨by simpa using hmain.1, ?_, ?_⟩
  · have h1 : (processJobs ⟨0, [], files0, 0⟩ js).scheduled
        = List.enumFrom 0 (successTexts js) := by simpa using hmain.1
    rw [h1, List.enumFrom_map_fst, List.range_eq_range']
  · intro s p rest
    have hcore : dispatchCore (processJobs (processJob s ⟨p, JobOutcome.failure⟩) rest)
        = dispatchCore (processJobs s rest) :=
      processJobs_core rest (processJob_failure_core s p)
    have hsch : (processJobs (processJob s ⟨p, JobOutcome.failure⟩) rest).scheduled
        = (processJobs s rest).scheduled := congrArg (fun x => x.2.1) hcore
    have hseq : (processJobs (processJob s ⟨p, JobOutcome.failure⟩) rest).current_sequence
        = (processJobs s rest).current_sequence := congrArg (fun x => x.1) hcore
    exact ⟨by simp [processJob], by simp [processJob], hsch, hseq⟩

/-! ### Claim C4 -/

/-- Counterexample to C4 as stated: `perform_inference` is called with
`cleanup_file=False` and only the success branch of the futures loop removes
the file, so after a recognition failure of the job for `webcam1.mp4` the
file is still on disk — it is not deleted at failure time. -/
theorem c4_counterexample :
    "webcam1.mp4".toList ∈
      (processJob ⟨0, [], ["webcam1.mp4".toList], 0⟩
        ⟨"webcam1.mp4".toList, JobOutcome.failure⟩).files := by
  decide

/-- Claim C4, amended: on a recognition failure the failure is reported and
the pipeline continues unaffected for subsequent segments (no later segment
is blocked or dropped: the schedule, counter and files after the remaining
jobs are exactly as if the failed job had never been queued); the failed
job's video file is NOT deleted at failure time — it stays on disk and is
removed only by the shutdown cleanup, which removes it because segment files
match `prefix*.mp4`. -/
theorem c4_recognition_failure_amended (s : DispatchState) (p : List Char)
    (rest : List Job) (pfx : List Char) (disk : List (List Char)) :
    (processJob s ⟨p, JobOutcome.failure⟩).files = s.files ∧
    (processJob s ⟨p, JobOutcome.failure⟩).failures = s.failures + 1 ∧
    (processJobs s (⟨p, JobOutcome.failure⟩ :: rest)).scheduled
      = (processJobs s rest).scheduled ∧
    (processJobs s (⟨p, JobOutcome.failure⟩ :: rest)).current_sequence
      = (processJobs s rest).current_sequence ∧
    (processJobs s (⟨p, JobOutcome.failure⟩ :: rest)).files
      = (processJobs s rest).files ∧
    (matchesCleanupGlob pfx p = true → p ∉ cleanup_temp_videos pfx disk) := by
  have hcore : dispatchCore (processJobs (processJob s ⟨p, JobOutcome.failure⟩) rest)
      = dispatchCore (processJobs s rest) :=
    processJobs_core rest (processJob_failure_core s p)
  refine ⟨by simp [processJob], by simp [processJob],
    congrArg (fun x => x.2.1) hcore, congrArg (fun x => x.1) hcore,
    congrArg (fun x => x.2.2) hcore, ?_⟩
  intro hm hmem
  have := List.of_mem_filter hmem
  rw [hm] at this
  cases this

/-- Witness for C4 at a concrete failed job. -/
theorem c4_witness :
    matchesCleanupGlob "webcam".toList "webcam1.mp4".toList = true ∧
    (processJob ⟨0, [], ["webcam1.mp4".toList], 0⟩
        ⟨"webcam1.mp4".toList, JobOutcome.failure⟩).files = ["webcam1.mp4".toList] ∧
    "webcam1.mp4".toList ∉
      cleanup_temp_videos "webcam".toList ["webcam1.mp4".toList] := by
  refine ⟨by decide, ?_, ?_⟩
  · exact (c4_recognition_failure_amended ⟨0, [], ["webcam1.mp4".toList], 0⟩
      "webcam1.mp4".toList [] "webcam".toList ["webcam1.mp4".toList]).1
  · exact (c4_recognition_failure_amended ⟨0, [], ["webcam1.mp4".toList], 0⟩
      "webcam1.mp4".toList [] "webcam".toList ["webcam1.mp4".toList]).2.2.2.2.2
      (by decide)

/-! ### Claim C5 -/

/-- Claim C5: short-segment discard (I3).  For every closed segment (a pass
of the capture loop with recording just stopped and a positive frame count):
if `framesWritten < fps × 2` (with the default
`MIN_RECORDING_DURATION_SECONDS = 2`) the segment is never submitted for
inference and its backing file is deleted; if `framesWritten ≥ fps × 2` the
segment is submitted. -/
theorem c5_short_segment_discard (fps ts : Nat) (pfx : List Char) (s : CamState)
    (hrec : s.recording = false) (hfc : 0 < s.frame_count) :
    MIN_RECORDING_DURATION_SECONDS = 2 ∧
    (s.frame_count < fps * 2 →
      (camTick fps pfx ts true s).submitted = s.submitted ∧
      (camTick fps pfx ts true s).files = s.files.erase s.output_path) ∧
    (fps * 2 ≤ s.frame_count →
      (camTick fps pfx ts true s).submitted = s.submitted ++ [s.output_path]) := by
  refine ⟨rfl, ?_, ?_⟩
  · intro hshort
    have hsp : should_process_recording s.frame_count fps = false := by
      simp [should_process_recording, MIN_RECORDING_DURATION_SECONDS]
      omega
    cases houtp : s.outPath with
    | none => simp [camTick, hrec, hfc, houtp, hsp]
    | some p => simp [camTick, hrec, hfc, houtp, hsp]
  · intro hlong
    have hsp : should_process_recording s.frame_count fps = true := by
      simp [should_process_recording, MIN_RECORDING_DURATION_SECONDS]
      omega
    cases houtp : s.outPath with
    | none => simp [camTick, hrec, hfc, houtp, hsp]
    | some p => simp [camTick, hrec, hfc, houtp, hsp]

/-- Witness for C5 at a 10-frame segment with `fps = 16`. -/
theorem c5_witness :
    (camTick 16 "webcam".toList 7 true
      ⟨false, none, 10, "webcam5.mp4".toList, ["webcam5.mp4".toList], [], []⟩).submitted
      = [] ∧
    (camTick 16 "webcam".toList 7 true
      ⟨false, none, 10, "webcam5.mp4".toList, ["webcam5.mp4".toList], [], []⟩).files
      = (["webcam5.mp4".toList].erase "webcam5.mp4".toList) :=
  (c5_short_segment_discard 16 7 "webcam".toList
    ⟨false, none, 10, "webcam5.mp4".toList, ["webcam5.mp4".toList], [], []⟩
    rfl (by decide)).2.1 (by decide)

/-! ### Claim C9 -/

lemma decodeDecimal_concat (cs : List Char) (c : Char) :
    decodeDecimal (cs ++ [c]) = (decodeDecimal cs) * 10 + (c.toNat - 48) := by
  simp [decodeDecimal, List.foldl_append]

lemma digit_char_toNat : ∀ r < 10, (Char.ofNat (48 + r)).toNat = 48 + r := by decide

lemma decode_decimalDigitsF : ∀ fuel n, n ≤ fuel →
    decodeDecimal (decimalDigitsF fuel n).reverse = n := by
  intro fuel
  induction fuel with
  | zero =>
    intro n hn
    have : n = 0 := by omega
    subst this
    rfl
  | succ f ih =>
    intro n hn
    match n with
    | 0 => rfl
    | m + 1 =>
      rw [decimalDigitsF, List.reverse_cons, decodeDecimal_concat]
      have hq : (m + 1) / 10 ≤ f := by omega
      rw [ih _ hq]
      rw [digit_char_toNat _ (by omega)]
      omega

lemma decode_decimalChars (n : Nat) : decodeDecimal (decimalChars n) = n := by
  unfold decimalChars
  by_cases h : n = 0
  · subst h; rfl
  · rw [if_neg h]
    exact decode_decimalDigitsF n n le_rfl

lemma decimalChars_injective {a b : Nat} (h : decimalChars a = decimalChars b) :
    a = b := by
  have h2 := congrArg decodeDecimal h
  rwa [decode_decimalChars, decode_decimalChars] at h2

/-- Counterexample to C9 as stated: the cleanup glob is
`f"{output_prefix}*.mp4"`, not `prefix*`; the file `webcamnote.txt` matches
`webcam*` yet survives `cleanup_temp_videos`. -/
theorem c9_counterexample :
    matchesStarGlob "webcam".toList "webcamnote.txt".toList = true ∧
    "webcamnote.txt".toList ∈
      cleanup_temp_videos "webcam".toList ["webcamnote.txt".toList] := by
  decide

/-- Claim C9, amended: segment files are persisted under names of the form
`prefix + millisecond-timestamp + ".mp4"`, and any two segments whose
millisecond timestamps differ receive distinct file names; at process
shutdown the cleanup routine removes from the working directory exactly the
files matching `prefix*.mp4` (not all files matching `prefix*`). -/
theorem c9_naming_and_cleanup (pfx : List Char) (t1 t2 : Nat)
    (disk : List (List Char)) (f : List Char) :
    generate_video_path pfx t1 = pfx ++ decimalChars t1 ++ ".mp4".toList ∧
    (t1 ≠ t2 → generate_video_path pfx t1 ≠ generate_video_path pfx t2) ∧
    (matchesCleanupGlob pfx f = true → f ∉ cleanup_temp_videos pfx disk) ∧
    (matchesCleanupGlob pfx f = false → f ∈ disk →
      f ∈ cleanup_temp_videos pfx disk) := by
  refine ⟨rfl, ?_, ?_, ?_⟩
  · intro hne heq
    unfold generate_video_path at heq
    have h1 : pfx ++ decimalChars t1 = pfx ++ decimalChars t2 :=
      List.append_cancel_right heq
    exact hne (decimalChars_injective (List.append_cancel_left h1))
  · intro hm hmem
    have := List.of_mem_filter hmem
    rw [hm] at this
    cases this
  · intro hm hmem
    refine List.mem_filter.mpr ⟨hmem, ?_⟩
    rw [hm]
    rfl

/-- Witness for C9: two distinct timestamps give distinct names, and a
matching `.mp4` file is removed at shutdown. -/
theorem c9_witness :
    generate_video_path "webcam".toList 0 ≠ generate_video_path "webcam".toList 1 ∧
    "webcam1.mp4".toList ∉
      cleanup_temp_videos "webcam".toList ["webcam1.mp4".toList] :=
  ⟨(c9_naming_and_cleanup "webcam".toList 0 1 ["webcam1.mp4".toList]
      "webcam1.mp4".toList).2.1 (by decide),
   (c9_naming_and_cleanup "webcam".toList 0 1 ["webcam1.mp4".toList]
      "webcam1.mp4".toList).2.2.1 (by decide)⟩

/-! ### Claim C1 -/

lemma gate_emitted_inv {s : GateState} (h : GateReach gateInit s) :
    s.emitted = List.range s.nextToEmit := by
  induction h with
  | refl => rfl
  | tail _ hstep ih =>
    cases hstep with
    | arrive n hph => exact ih
    | emit n hph hnext =>
      show _ ++ [n] = List.range (n + 1)
      rw [ih, hnext, List.range_succ]
    | emitFail n hph hnext => exact ih

lemma pair_sublist_range {a b : Nat} : ∀ {n : Nat}, a < b → b < n →
    List.Sublist [a, b] (List.range n) := by
  intro n
  induction n with
  | zero => intro _ hb; omega
  | succ m ih =>
    intro hab hb
    rw [List.range_succ]
    by_cases hbm : b < m
    · exact List.sublist_append_of_sublist_left (ih hab hbm)
    · have hbeq : b = m := by omega
      subst hbeq
      have h1 : List.Sublist [a] (List.range b) :=
        List.singleton_sublist.mpr (List.mem_range.mpr hab)
      exact List.Sublist.append h1 (List.Sublist.refl [b])

/-- Claim C1: in-order emission (I2).  For any two correction tasks carrying
sequence numbers `a` and `b` with `a < b`, the emission side effect (typing)
for `a` happens before the emission side effect for `b`, regardless of the
order or latency with which their corrections complete (i.e. in every
reachable state of the gate protocol): whenever `b` has been typed, `a` was
typed earlier (`[a, b]` is a sublist of the emission history).  The model's
`emit` step can fire only when `next_sequence_to_type` equals the task's own
sequence number, which is exactly the gate's wait condition. -/
theorem c1_in_order_emission {s : GateState} (h : GateReach gateInit s)
    (a b : Nat) (hab : a < b) (hb : b ∈ s.emitted) :
    List.Sublist [a, b] s.emitted := by
  have hinv := gate_emitted_inv h
  rw [hinv] at hb ⊢
  exact pair_sublist_range hab (List.mem_range.mp hb)

/-- Intermediate states of a demo run in which corrections complete out of
order (sequence 1 reaches the gate first). -/
def gateD1 : GateState := ⟨0, setPhase (fun _ => .correcting) 1 .atGate, []⟩

def gateD2 : GateState :=
  ⟨0, setPhase (setPhase (fun _ => .correcting) 1 .atGate) 0 .atGate, []⟩

def gateD3 : GateState :=
  ⟨1, setPhase (setPhase (setPhase (fun _ => .correcting) 1 .atGate) 0 .atGate) 0 .typed,
   [0]⟩

def gateDemoState : GateState :=
  ⟨2, setPhase (setPhase (setPhase (setPhase (fun _ => .correcting) 1 .atGate)
      0 .atGate) 0 .typed) 1 .typed, [0, 1]⟩

lemma gateDemo_reach : GateReach gateInit gateDemoState := by
  have s1 : GateStep gateInit gateD1 := GateStep.arrive gateInit 1 rfl
  have s2 : GateStep gateD1 gateD2 := GateStep.arrive gateD1 0 rfl
  have s3 : GateStep gateD2 gateD3 := GateStep.emit gateD2 0 rfl rfl
  have s4 : GateStep gateD3 gateDemoState := GateStep.emit gateD3 1 rfl rfl
  exact GateReach.tail (GateReach.tail (GateReach.tail
    (GateReach.tail (GateReach.refl gateInit) s1) s2) s3) s4

/-- Witness for C1 on the out-of-order completion demo run. -/
theorem c1_witness : 0 < 1 ∧ List.Sublist [0, 1] gateDemoState.emitted :=
  ⟨by decide, c1_in_order_emission gateDemo_reach 0 1 (by decide) (by decide)⟩

/-! ### Claim C2 -/

/-- Intermediate states reaching the failure scenario: corrections 0 and 1
both reach the gate, then the emission call (`kbd_controller.type`) for
sequence 0 raises.  In the code there is no try/finally around the call, so
`self.next_sequence_to_type += 1` and `notify_all()` never run. -/
def gateF1 : GateState := ⟨0, setPhase (fun _ => .correcting) 0 .atGate, []⟩

def gateF2 : GateState :=
  ⟨0, setPhase (setPhase (fun _ => .correcting) 0 .atGate) 1 .atGate, []⟩

def gateFailState : GateState :=
  ⟨0, setPhase (setPhase (setPhase (fun _ => .correcting) 0 .atGate) 1 .atGate)
      0 .crashed, []⟩

lemma gateFail_inv {s : GateState} (h : GateReach gateFailState s) :
    s.nextToEmit = 0 ∧ s.emitted = [] ∧ s.phase 0 = .crashed := by
  induction h with
  | refl => exact ⟨rfl, rfl, rfl⟩
  | tail _ hstep ih =>
    obtain ⟨hn, he, hp⟩ := ih
    cases hstep with
    | arrive n hph =>
      have hn0 : n ≠ 0 := by
        intro h0
        rw [h0, hp] at hph
        cases hph
      refine ⟨hn, he, ?_⟩
      show setPhase _ n .atGate 0 = .crashed
      simp only [setPhase]
      rw [if_neg (fun h0 => hn0 h0.symm)]
      exact hp
    | emit n hph hnext =>
      rw [hn] at hnext
      rw [← hnext, hp] at hph
      cases hph
    | emitFail n hph hnext =>
      rw [hn] at hnext
      rw [← hnext, hp] at hph
      cases hph

/-- Claim C2 fails on the code (code bug): the failure scenario is reachable,
and from the state in which the emission call for sequence 0 raised, no
continuation of the system ever advances `next_sequence_to_type` or types
anything — in particular the task waiting with sequence 1 blocks forever.
This contradicts the claim (and the spec's requirement) that the counter is
incremented and waiters are notified even if `kbd_controller.type` raises:
the code has no try/finally around the emission call, so the increment on
the line below it is skipped when it raises. -/
theorem c2_failed_emission_blocks_gate :
    GateReach gateInit gateFailState ∧
    ∀ s, GateReach gateFailState s →
      s.nextToEmit = 0 ∧ s.emitted = [] ∧ 1 ∉ s.emitted := by
  constructor
  · have s1 : GateStep gateInit gateF1 := GateStep.arrive gateInit 0 rfl
    have s2 : GateStep gateF1 gateF2 := GateStep.arrive gateF1 1 rfl
    have s3 : GateStep gateF2 gateFailState := GateStep.emitFail gateF2 0 rfl rfl
    exact GateReach.tail (GateReach.tail
      (GateReach.tail (GateReach.refl gateInit) s1) s2) s3
  · intro s h
    obtain ⟨hn, he, _⟩ := gateFail_inv h
    refine ⟨hn, he, ?_⟩
    rw [he]
    exact List.not_mem_nil 1

/-- Witness for C2 at the failure state itself. -/
theorem c2_witness :
    GateReach gateInit gateFailState ∧ gateFailState.nextToEmit = 0 ∧
      gateFailState.emitted = [] :=
  ⟨c2_failed_emission_blocks_gate.1,
   (c2_failed_emission_blocks_gate.2 gateFailState
      (GateReach.refl gateFailState)).1,
   (c2_failed_emission_blocks_gate.2 gateFailState
      (GateReach.refl gateFailState)).2.1⟩

/-! ### Claim C8 -/

/-- The writer bookkeeping invariant of the capture loop: the `out` variable
and the list of created-but-unreleased writers agree. -/
def camInv (s : CamState) : Prop :=
  (s.outPath = none → s.openWriters = []) ∧
  (∀ p, s.outPath = some p → s.openWriters = [p])

lemma camInv_init : camInv camInit := by
  constructor
  · intro _; rfl
  · intro p hp; cases hp

lemma camTick_skip (fps ts : Nat) (pfx : List Char) (s : CamState) :
    camTick fps pfx ts false s = s := rfl

lemma camTick_start (fps ts : Nat) (pfx : List Char) (s : CamState)
    (hrec : s.recording = true) (houtp : s.outPath = none) :
    camTick fps pfx ts true s =
      { s with outPath := some (generate_video_path pfx ts),
               output_path := generate_video_path pfx ts,
               frame_count := 1,
               files := s.files ++ [generate_video_path pfx ts],
               openWriters := s.openWriters ++ [generate_video_path pfx ts] } := by
  simp [camTick, hrec, houtp]

lemma camTick_write (fps ts : Nat) (pfx : List Char) (s : CamState) (q : List Char)
    (hrec : s.recording = true) (houtp : s.outPath = some q) :
    camTick fps pfx ts true s = { s with frame_count := s.frame_count + 1 } := by
  simp [camTick, hrec, houtp]

lemma camTick_stop (fps ts : Nat) (pfx : List Char) (s : CamState)
    (hrec : s.recording = false) (hfc : 0 < s.frame_count) :
    (camTick fps pfx ts true s).outPath = none ∧
    (camTick fps pfx ts true s).openWriters =
      (match s.outPath with
       | some q => s.openWriters.erase q
       | none => s.openWriters) := by
  cases houtp : s.outPath with
  | none =>
    by_cases hsp : should_process_recording s.frame_count fps = true
    · constructor <;> simp [camTick, hrec, hfc, houtp, hsp]
    · constructor <;> simp [camTick, hrec, hfc, houtp, hsp]
  | some q =>
    by_cases hsp : should_process_recording s.frame_count fps = true
    · constructor <;> simp [camTick, hrec, hfc, houtp, hsp]
    · constructor <;> simp [camTick, hrec, hfc, houtp, hsp]

lemma camTick_idle (fps ts : Nat) (pfx : List Char) (s : CamState)
    (hrec : s.recording = false) (hfc : s.frame_count = 0) (frameOk : Bool) :
    camTick fps pfx ts frameOk s = s := by
  cases frameOk with
  | false => rfl
  | true =>
    unfold camTick
    rw [if_neg (by simp)]
    rw [if_neg (by rw [hrec]; exact Bool.false_ne_true)]
    rw [if_neg (by omega)]

lemma camInv_tick {s : CamState} (fps ts : Nat) (pfx : List Char)
    (frameOk : Bool) (h : camInv s) : camInv (camTick fps pfx ts frameOk s) := by
  obtain ⟨hnone, hsome⟩ := h
  cases frameOk with
  | false => exact ⟨hnone, hsome⟩
  | true =>
    by_cases hrec : s.recording = true
    · cases houtp : s.outPath with
      | none =>
        rw [camTick_start fps ts pfx s hrec houtp]
        constructor
        · intro habs; cases habs
        · intro p hp
          obtain rfl : generate_video_path pfx ts = p := by
            simpa using hp
          rw [hnone houtp]
          rfl
      | some q =>
        rw [camTick_write fps ts pfx s q hrec houtp]
        exact ⟨hnone, hsome⟩
    · have hrec2 : s.recording = false := by
        cases hv : s.recording
        · rfl
        · exact absurd hv hrec
      by_cases hfc : 0 < s.frame_count
      · obtain ⟨h1, h2⟩ := camTick_stop fps ts pfx s hrec2 hfc
        constructor
        · intro _
          rw [h2]
          cases houtp : s.outPath with
          | none => exact hnone houtp
          | some q =>
            rw [hsome q houtp]
            exact List.erase_cons_head q []
        · intro p hp
          rw [h1] at hp
          cases hp
      · have hfc2 : s.frame_count = 0 := by omega
        rw [camTick_idle fps ts pfx s hrec2 hfc2]
        exact ⟨hnone, hsome⟩

lemma camInv_reach {fps : Nat} {pfx : List Char} {s : CamState}
    (h : CamReach fps pfx s) : camInv s := by
  induction h with
  | init => exact camInv_init
  | step _ hstep ih =>
    cases hstep with
    | toggle => exact ⟨ih.1, ih.2⟩
    | tick ts frameOk => exact camInv_tick fps ts pfx frameOk ih

/-- Claim C8: single active segment (I4).  In every state the capture loop
can reach, at most one video writer (open segment) exists; and a pass of the
loop while recording is off, no segment is open and the frame count is 0
changes no recording state at all (no file is created or deleted, nothing is
submitted — the state is literally unchanged). -/
theorem c8_single_active_segment (fps : Nat) (pfx : List Char) :
    (∀ s, CamReach fps pfx s → s.openWriters.length ≤ 1) ∧
    (∀ (s : CamState) (ts : Nat) (frameOk : Bool),
      s.recording = false → s.outPath = none → s.frame_count = 0 →
      camTick fps pfx ts frameOk s = s) := by
  constructor
  · intro s h
    obtain ⟨hnone, hsome⟩ := camInv_reach h
    cases houtp : s.outPath with
    | none => rw [hnone houtp]; simp
    | some p => rw [hsome p houtp]; simp
  · intro s ts frameOk hrec _ hfc
    exact camTick_idle fps ts pfx s hrec hfc frameOk

/-- Witness for C8: the initial state is reachable and has no open writer;
a tick in the stopped empty state is a no-op. -/
theorem c8_witness :
    camInit.openWriters.length ≤ 1 ∧
    camTick 16 "webcam".toList 3 true camInit = camInit :=
  ⟨(c8_single_active_segment 16 "webcam".toList).1 camInit CamReach.init,
   (c8_single_active_segment 16 "webcam".toList).2 camInit 3 true rfl rfl rfl⟩

/-! ### Claim C6 -/

lemma startsWith_eq_append : ∀ {pat s : List Char},
    listStartsWith pat s = true → s = pat ++ s.drop pat.length := by
  intro pat
  induction pat with
  | nil => intro s _; simp
  | cons p ps ih =>
    intro s h
    cases s with
    | nil => cases h
    | cons x xs =>
      simp only [listStartsWith, Bool.and_eq_true, decide_eq_true_eq] at h
      obtain ⟨rfl, hrest⟩ := h
      simp only [List.length_cons, List.drop_succ_cons, List.cons_append,
        List.cons.injEq]
      exact ⟨trivial, ih hrest⟩

lemma matchGap_decomp {starter rest rest2 : List Char}
    (h : matchGapStarter starter rest = some rest2) {c : Char}
    (hc : c ∈ rest) (hs : isPySpace c = false) : c ∈ starter ∨ c ∈ rest2 := by
  unfold matchGapStarter at h
  cases rest with
  | nil => cases h
  | cons x cs =>
    by_cases hx : isPySpace x = true
    · simp only [hx, if_true] at h
      by_cases hsw : listStartsWith starter ((x :: cs).dropWhile isPySpace) = true
      · simp only [hsw, if_true, Option.some.injEq] at h
        subst h
        have hct : c ∈ (x :: cs).dropWhile isPySpace := mem_dropWhile_of_not hc hs
        rw [startsWith_eq_append hsw] at hct
        exact List.mem_append.mp hct
      · simp only [hsw] at h
        cases h
    · simp only [hx] at h
      cases h

lemma mem_applyStarterSubF {c : Char} (hs : isPySpace c = false) :
    ∀ (fuel : Nat) (starter s : List Char), c ∈ s →
      c ∈ applyStarterSubF starter fuel s := by
  intro fuel
  induction fuel with
  | zero => intro st s hc; simpa [applyStarterSubF] using hc
  | succ f ih =>
    intro st s hc
    cases s with
    | nil => cases hc
    | cons x rest =>
      by_cases hw : isWordChar x = true
      · cases hm : matchGapStarter st rest with
        | none =>
          have heq : applyStarterSubF st (f + 1) (x :: rest)
              = x :: applyStarterSubF st f rest := by
            simp [applyStarterSubF, hw, hm]
          rw [heq]
          rcases List.mem_cons.mp hc with rfl | hcr
          · exact List.mem_cons_self _ _
          · exact List.mem_cons_of_mem _ (ih st rest hcr)
        | some rest2 =>
          have heq : applyStarterSubF st (f + 1) (x :: rest)
              = x :: '.' :: ' ' :: (st ++ applyStarterSubF st f rest2) := by
            simp [applyStarterSubF, hw, hm]
          rw [heq]
          rcases List.mem_cons.mp hc with rfl | hcr
          · exact List.mem_cons_self _ _
          · rcases matchGap_decomp hm hcr hs with hst | hr2
            · simp [List.mem_cons, List.mem_append, hst]
            · simp [List.mem_cons, List.mem_append, ih st rest2 hr2]
      · have heq : applyStarterSubF st (f + 1) (x :: rest)
            = x :: applyStarterSubF st f rest := by
          simp [applyStarterSubF, hw]
        rw [heq]
        rcases List.mem_cons.mp hc with rfl | hcr
        · exact List.mem_cons_self _ _
        · exact List.mem_cons_of_mem _ (ih st rest hcr)

lemma mem_starters_foldl {c : Char} (hs : isPySpace c = false) :
    ∀ (sts : List (List Char)) (t : List Char), c ∈ t →
      c ∈ sts.foldl (fun t st => applyStarterSub st t) t := by
  intro sts
  induction sts with
  | nil => intro t h; exact h
  | cons st rest ih =>
    intro t h
    exact ih _ (mem_applyStarterSubF hs t.length st t h)

lemma pyToLower_solid (c : Char) (hs : isPySpace c = false)
    (hp : isTermPunct c = false) :
    isPySpace (pyToLower c) = false ∧ isTermPunct (pyToLower c) = false := by
  unfold pyToLower
  by_cases h : 65 ≤ c.toNat ∧ c.toNat ≤ 90
  · rw [if_pos h]
    have key : ∀ n < 91, 65 ≤ n →
        isPySpace (Char.ofNat (n + 32)) = false ∧
          isTermPunct (Char.ofNat (n + 32)) = false := by decide
    exact key c.toNat (by omega) h.1
  · rw [if_neg h]
    exact ⟨hs, hp⟩

lemma mem_splitPunctF {c : Char} (hp : isTermPunct c = false) :
    ∀ (fuel : Nat) (s : List Char), c ∈ s →
      ∃ p ∈ splitPunctF fuel s, c ∈ p := by
  intro fuel
  induction fuel with
  | zero =>
    intro s hc
    refine ⟨s, ?_, hc⟩
    simp [splitPunctF]
  | succ f ih =>
    intro s hc
    cases s with
    | nil => cases hc
    | cons x rest =>
      by_cases hx : isTermPunct x = true
      · have hcr : c ∈ rest := by
          rcases List.mem_cons.mp hc with rfl | h
          · rw [hx] at hp; cases hp
          · exact h
        obtain ⟨p, hpmem, hcp⟩ := ih _ (mem_dropWhile_of_not hcr hp)
        have heq : splitPunctF (f + 1) (x :: rest)
            = [] :: splitPunctF f (rest.dropWhile isTermPunct) := by
          simp [splitPunctF, hx]
        rw [heq]
        exact ⟨p, List.mem_cons_of_mem _ hpmem, hcp⟩
      · rcases List.mem_cons.mp hc with rfl | hcr
        · cases hsp : splitPunctF f rest with
          | nil =>
            have heq : splitPunctF (f + 1) (c :: rest) = [[c]] := by
              simp [splitPunctF, hx, hsp]
            rw [heq]
            exact ⟨[c], by simp, by simp⟩
          | cons p ps =>
            have heq : splitPunctF (f + 1) (c :: rest) = (c :: p) :: ps := by
              simp [splitPunctF, hx, hsp]
            rw [heq]
            exact ⟨c :: p, List.mem_cons_self _ _, List.mem_cons_self _ _⟩
        · obtain ⟨p0, hp0mem, hcp0⟩ := ih rest hcr
          cases hsp : splitPunctF f rest with
          | nil =>
            rw [hsp] at hp0mem
            cases hp0mem
          | cons p ps =>
            rw [hsp] at hp0mem
            have heq : splitPunctF (f + 1) (x :: rest) = (x :: p) :: ps := by
              simp [splitPunctF, hx, hsp]
            rw [heq]
            rcases List.mem_cons.mp hp0mem with rfl | hps
            · exact ⟨x :: p0, List.mem_cons_self _ _, List.mem_cons_of_mem _ hcp0⟩
            · exact ⟨p0, List.mem_cons_of_mem _ hps, hcp0⟩

lemma capitalize_ne_nil {s : List Char} (h : s ≠ []) : capitalizeSentence s ≠ [] := by
  unfold capitalizeSentence
  by_cases hl : 1 < s.length
  · rw [if_pos hl]
    cases s with
    | nil => exact absurd rfl h
    | cons c rest => simp
  · rw [if_neg hl]
    simpa using h

lemma joinDotSpace_ne_nil : ∀ (xs : List (List Char)),
    (∀ x ∈ xs, x ≠ []) → xs ≠ [] → joinDotSpace xs ≠ [] := by
  intro xs hall hne
  match xs with
  | [] => exact absurd rfl hne
  | [x] => simpa [joinDotSpace] using hall x (by simp)
  | x :: y :: rest => simp [joinDotSpace]

lemma ensureTerminal_of_ne_nil (s : List Char) (h : s ≠ []) :
    ensureTerminal s ≠ [] ∧ endsTerminal (ensureTerminal s) = true := by
  obtain ⟨l, hl⟩ : ∃ l, s.getLast? = some l := by
    cases hv : s.getLast? with
    | none => exact absurd (List.getLast?_eq_none_iff.mp hv) h
    | some l => exact ⟨l, rfl⟩
  unfold ensureTerminal
  rw [hl]
  show (if isTermPunct l = true then s else s ++ ['.']) ≠ [] ∧
    endsTerminal (if isTermPunct l = true then s else s ++ ['.']) = true
  by_cases hp : isTermPunct l = true
  · rw [if_pos hp]
    exact ⟨h, by simp [endsTerminal, hl, hp]⟩
  · rw [if_neg hp]
    refine ⟨by simp, ?_⟩
    simp [endsTerminal, List.getLast?_concat, isTermPunct]

lemma ensureTerminal_of_ends (s : List Char) (h : endsTerminal s = true) :
    ensureTerminal s = s := by
  unfold endsTerminal at h
  cases hv : s.getLast? with
  | none => rw [hv] at h; cases h
  | some l =>
    rw [hv] at h
    simp only [] at h
    unfold ensureTerminal
    rw [hv]
    show (if isTermPunct l = true then s else s ++ ['.']) = s
    rw [if_pos h]

lemma termPunct_not_space (c : Char) (h : isTermPunct c = true) :
    isPySpace c = false := by
  simp [isTermPunct] at h
  rcases h with (rfl | rfl) | rfl <;> rfl

lemma pyStrip_ends {t : List Char} (h : endsTerminal t = true) :
    pyStrip t ≠ [] ∧ endsTerminal (pyStrip t) = true := by
  obtain ⟨l, hl, hpl⟩ : ∃ l, t.getLast? = some l ∧ isTermPunct l = true := by
    unfold endsTerminal at h
    cases hv : t.getLast? with
    | none => rw [hv] at h; cases h
    | some l =>
      rw [hv] at h
      simp only [] at h
      exact ⟨l, rfl, h⟩
  have hlns : isPySpace l = false := termPunct_not_space l hpl
  have hlm : l ∈ t := List.mem_of_mem_getLast? (by rw [hl]; rfl)
  have hu_ne : t.dropWhile isPySpace ≠ [] :=
    List.ne_nil_of_mem (mem_dropWhile_of_not hlm hlns)
  obtain ⟨pre, hpre⟩ := List.dropWhile_suffix (l := t) isPySpace
  have hu_last : (t.dropWhile isPySpace).getLast? = some l := by
    have h3 := List.getLast?_append_of_ne_nil pre hu_ne
    rw [hpre] at h3
    rw [← h3]
    exact hl
  have hrev : (t.dropWhile isPySpace).reverse.head? = some l := by
    rw [List.head?_reverse]
    exact hu_last
  obtain ⟨w, hw⟩ : ∃ w, (t.dropWhile isPySpace).reverse = l :: w := by
    cases hv : (t.dropWhile isPySpace).reverse with
    | nil => rw [hv] at hrev; cases hrev
    | cons a w =>
      rw [hv] at hrev
      simp only [List.head?_cons, Option.some.injEq] at hrev
      subst hrev
      exact ⟨w, rfl⟩
  have hdrop2 : ((t.dropWhile isPySpace).reverse).dropWhile isPySpace
      = (t.dropWhile isPySpace).reverse := by
    rw [hw]
    exact List.dropWhile_cons_of_neg (by simp [hlns])
  have hstrip : pyStrip t = t.dropWhile isPySpace := by
    unfold pyStrip
    rw [hdrop2, List.reverse_reverse]
  rw [hstrip]
  refine ⟨hu_ne, ?_⟩
  simp [endsTerminal, hu_last, hpl]

lemma format_eq_of_ne (text : List Char) (h1 : text ≠ []) (h2 : pyStrip text ≠ []) :
    format_text_locally text =
      ensureTerminal (joinDotSpace (((((splitPunct (CLAUSE_STARTERS.foldl
        (fun t st => applyStarterSub st t) ((pyStrip text).map pyToLower)))).map
          pyStrip).filter (fun s => s ≠ [])).map capitalizeSentence)) := by
  unfold format_text_locally ensureTerminal
  rw [if_neg (by simp [h1, h2])]

lemma format_solid {c : Char} {text : List Char} (hc : c ∈ text)
    (hs : isPySpace c = false) (hp : isTermPunct c = false) :
    format_text_locally text ≠ [] ∧
      endsTerminal (format_text_locally text) = true := by
  have h1 : text ≠ [] := List.ne_nil_of_mem hc
  have h2 : pyStrip text ≠ [] := pyStrip_ne_nil hc hs
  rw [format_eq_of_ne text h1 h2]
  obtain ⟨hs1, hp1⟩ := pyToLower_solid c hs hp
  have hc1 : pyToLower c ∈ (pyStrip text).map pyToLower :=
    List.mem_map_of_mem _ (mem_pyStrip hc hs)
  have hc2 : pyToLower c ∈ CLAUSE_STARTERS.foldl (fun t st => applyStarterSub st t)
      ((pyStrip text).map pyToLower) := mem_starters_foldl hs1 _ _ hc1
  obtain ⟨piece, hpmem, hcp⟩ :=
    mem_splitPunctF hp1
      (CLAUSE_STARTERS.foldl (fun t st => applyStarterSub st t)
        ((pyStrip text).map pyToLower)).length _ hc2
  have hpmem2 : piece ∈ splitPunct (CLAUSE_STARTERS.foldl
      (fun t st => applyStarterSub st t) ((pyStrip text).map pyToLower)) := hpmem
  have hpc : pyToLower c ∈ pyStrip piece := mem_pyStrip hcp hs1
  have hsent : pyStrip piece ∈ (((splitPunct (CLAUSE_STARTERS.foldl
      (fun t st => applyStarterSub st t) ((pyStrip text).map pyToLower))).map
        pyStrip).filter (fun s => s ≠ [])) :=
    List.mem_filter.mpr ⟨List.mem_map_of_mem _ hpmem2,
      by simpa using List.ne_nil_of_mem hpc⟩
  have hfm : capitalizeSentence (pyStrip piece) ∈ ((((splitPunct (CLAUSE_STARTERS.foldl
      (fun t st => applyStarterSub st t) ((pyStrip text).map pyToLower))).map
        pyStrip).filter (fun s => s ≠ [])).map capitalizeSentence) :=
    List.mem_map_of_mem _ hsent
  have hall : ∀ y ∈ ((((splitPunct (CLAUSE_STARTERS.foldl
      (fun t st => applyStarterSub st t) ((pyStrip text).map pyToLower))).map
        pyStrip).filter (fun s => s ≠ [])).map capitalizeSentence), y ≠ [] := by
    intro y hy
    obtain ⟨x, hx, rfl⟩ := List.mem_map.mp hy
    exact capitalize_ne_nil (by simpa using List.of_mem_filter hx)
  have hjoin : joinDotSpace ((((splitPunct (CLAUSE_STARTERS.foldl
      (fun t st => applyStarterSub st t) ((pyStrip text).map pyToLower))).map
        pyStrip).filter (fun s => s ≠ [])).map capitalizeSentence) ≠ [] :=
    joinDotSpace_ne_nil _ hall (List.ne_nil_of_mem hfm)
  exact ensureTerminal_of_ne_nil _ hjoin

/-- Counterexample to C6 as stated: for the empty raw inference output and a
completely unreachable correction service, the correction stage produces the
empty string before the trailing separator — not a non-empty string ending in
`.`, `?` or `!`. -/
theorem c6_counterexample :
    ¬(correctStageCore (correct_text unreachableEnv [] true "local".toList) [] ≠ [] ∧
      endsTerminal
        (correctStageCore (correct_text unreachableEnv [] true "local".toList) [])
        = true) := by
  decide

/-- Claim C6, amended: for every raw inference output, the correction stage
(steps 1–3 of the correction task, before the gate rendezvous) produces a
string that, whenever it is non-empty, ends with `.`, `?` or `!` before the
trailing separator; and when the remote correction service is completely
unreachable the result is non-empty (hence punctuation-terminated) whenever
the raw output contains at least one character that is neither whitespace nor
one of `.`, `!`, `?`.  (It is empty for, e.g., an empty raw output, which is
the counterexample to the unamended claim.) -/
theorem c6_fallback_termination (tr : Except Unit ChaplinOutputM)
    (output model : List Char) :
    (correctStageCore tr output = [] ∨
      endsTerminal (correctStageCore tr output) = true) ∧
    ((∃ c ∈ output, isPySpace c = false ∧ isTermPunct c = false) →
      correctStageCore (correct_text unreachableEnv output true model) output ≠ [] ∧
      endsTerminal
        (correctStageCore (correct_text unreachableEnv output true model) output)
        = true) := by
  constructor
  · cases tr with
    | ok o =>
      by_cases h : pyStrip o.corrected_text = []
      · left
        show ensureTerminal (pyStrip o.corrected_text) = []
        rw [h]
        rfl
      · right
        show endsTerminal (ensureTerminal (pyStrip o.corrected_text)) = true
        exact (ensureTerminal_of_ne_nil _ h).2
    | error e =>
      by_cases h : format_text_locally output = []
      · left
        show ensureTerminal (format_text_locally output) = []
        rw [h]
        rfl
      · right
        show endsTerminal (ensureTerminal (format_text_locally output)) = true
        exact (ensureTerminal_of_ne_nil _ h).2
  · rintro ⟨c, hc, hs, hp⟩
    have hct : correct_text unreachableEnv output true model =
        Except.ok ⟨[], format_text_locally output⟩ := by
      simp [correct_text, unreachableEnv]
    rw [hct]
    obtain ⟨_, hends⟩ := format_solid hc hs hp
    obtain ⟨hsne, hsends⟩ := pyStrip_ends hends
    show ensureTerminal (pyStrip (format_text_locally output)) ≠ [] ∧
      endsTerminal (ensureTerminal (pyStrip (format_text_locally output))) = true
    rw [ensureTerminal_of_ends _ hsends]
    exact ⟨hsne, hsends⟩

/-- Witness for C6 at the raw output `"HELLO"` with the service unreachable. -/
theorem c6_witness :
    (∃ c ∈ "HELLO".toList, isPySpace c = false ∧ isTermPunct c = false) ∧
    correctStageCore
        (correct_text unreachableEnv "HELLO".toList true "local".toList)
        "HELLO".toList ≠ [] :=
  ⟨by decide,
   ((c6_fallback_termination (Except.error ()) "HELLO".toList "local".toList).2
      (by decide)).1⟩
